import Mathlib

/-!
Shallow embedding of the hybrid Newton/bisection root solver
(class HybridSolver in src/solver2.py).

Modelling conventions:
* Python floats are modelled as rationals (exact real arithmetic).
* A callable that may raise is modelled as a function into Option:
  a result of none stands for a raised exception at that argument.
* The method / decision strings of the history rows are kept verbatim.
* The loop for i in range(1, max_iter + 1) is modelled by structural
  recursion on the remaining fuel, with the 1-based index threaded through.
-/

/-- The literal 1e-12 used both for the zero-derivative guard (line 57)
and for the residual convergence test (line 102). -/
def eps : ℚ := 1 / 1000000000000

/-- One row of self.history, appended once per iteration (lines 92-99). -/
structure IterationRecord where
  iteration : Nat
  method : String
  currentX : ℚ
  fValue : ℚ
  errorEst : ℚ
  decision : String
  deriving DecidableEq

/-- The loop-local state of solve: the bracket endpoints a and b,
current_x, and the history accumulated so far. -/
structure LoopState where
  a : ℚ
  b : ℚ
  currentX : ℚ
  history : List IterationRecord
  deriving DecidableEq

/-- Lines 52-78 of solve: the protected Newton attempt. Evaluate
f(current_x) and f_prime(current_x); on an exception of either, or a
derivative below 1e-12 (which raises and is caught by the same handler),
fall back to the midpoint with the singularity note; if the Newton point
escapes the open bracket (a, b), fall back to the midpoint with the
overshoot note; otherwise accept the Newton point. Returns the new
current_x together with the method and decision strings. -/
def newtonAttempt (f df : ℚ → Option ℚ) (a b currentX : ℚ) : ℚ × String × String :=
  match f currentX, df currentX with
  | some fVal, some dfVal =>
    if |dfVal| < eps then
      ((a + b) / 2, "Bisection", "Switched (Newton Singularity)")
    else if a < currentX - fVal / dfVal ∧ currentX - fVal / dfVal < b then
      (currentX - fVal / dfVal, "Newton-Raphson", "Accepted (Step is Safe)")
    else
      ((a + b) / 2, "Bisection", "Switched (Newton Overshot Bounds)")
  | _, _ => ((a + b) / 2, "Bisection", "Switched (Newton Singularity)")

/-- Lines 80-99 of solve: the bracket update and the history row. The
evaluations f(current_x) (line 81) and f(a) (line 83) are outside the
try of the Newton attempt, so an exception of either (none) aborts the
whole call: this function then returns none. Otherwise one endpoint is
replaced by current_x, the error |b - a| is taken on the updated
bracket, and the row is built. -/
def stepUpdate (f : ℚ → Option ℚ) (i : Nat) (a b currentX : ℚ)
    (method decision : String) : Option (ℚ × ℚ × IterationRecord) :=
  match f currentX with
  | none => none
  | some fNew =>
    match f a with
    | none => none
    | some fa =>
      if fa * fNew < 0 then
        some (a, currentX, ⟨i, method, currentX, fNew, |currentX - a|, decision⟩)
      else
        some (currentX, b, ⟨i, method, currentX, fNew, |b - currentX|, decision⟩)

/-- One full iteration of the loop body (lines 48-99): the Newton attempt
followed by the bracket update; none when the update evaluations raise.
On success it returns the new loop state (with the row appended) and
the row itself. -/
def iterBody (f df : ℚ → Option ℚ) (i : Nat) (st : LoopState) :
    Option (LoopState × IterationRecord) :=
  match stepUpdate f i st.a st.b (newtonAttempt f df st.a st.b st.currentX).1
      (newtonAttempt f df st.a st.b st.currentX).2.1
      (newtonAttempt f df st.a st.b st.currentX).2.2 with
  | none => none
  | some (a', b', r) =>
      some (⟨a', b', (newtonAttempt f df st.a st.b st.currentX).1,
        st.history ++ [r]⟩, r)

/-- The loop of solve (lines 48-103). fuel is the number of remaining
iterations (initially max_iter), i the 1-based index of the next
iteration. The Bool of the result is true when an exception escaped an
iteration (and so the call raises); on a normal exit it is false.
The loop breaks when error < tol or |f_new| < 1e-12 (line 102). -/
def solveLoop (f df : ℚ → Option ℚ) (tol : ℚ) : Nat → Nat → LoopState → LoopState × Bool
  | 0, _, st => (st, false)
  | fuel + 1, i, st =>
    match iterBody f df i st with
    | none => (st, true)
    | some (st', r) =>
      if r.errorEst < tol ∨ |r.fValue| < eps then (st', false)
      else solveLoop f df tol fuel (i + 1) st'

/-- The solver object: the validity flag and error message produced by
parsing in __init__, the two lambdified callables, and the mutable
self.history field. -/
structure HybridSolver where
  valid : Bool
  f : ℚ → Option ℚ
  df : ℚ → Option ℚ
  history : List IterationRecord

/-- The error string returned on a bracket-validation failure (line 43). -/
def bracketMsg : String :=
  "Error: The chosen interval [a, b] does not bracket a root. f(a) and f(b) must have opposite signs."

/-- The value a call of solve hands back to the caller. result models the
duck-typed pair (root-or-None, history DataFrame); bracketError models
the pair (None, error string) of line 43; raised models an exception
propagating out of solve. -/
inductive SolveOutcome where
  | result : Option ℚ → List IterationRecord → SolveOutcome
  | bracketError : String → SolveOutcome
  | raised : SolveOutcome
  deriving DecidableEq

/-- HybridSolver.solve (lines 30-106). Returns the outcome together with
the solver state after the call (self.history may have been mutated).
An invalid parse returns (None, empty DataFrame) at once (lines 35-36).
Then f(a) and f(b) are evaluated (lines 39-40, unprotected: an exception
there propagates). A non-negative product returns the error string with
self.history untouched (lines 42-43): note that self.history is cleared
only afterwards, at line 46, just before the loop. -/
def HybridSolver.solve (s : HybridSolver) (a b tol : ℚ) (maxIter : Nat) :
    SolveOutcome × HybridSolver :=
  if s.valid then
    match s.f a, s.f b with
    | some fa, some fb =>
      if fa * fb ≥ 0 then (SolveOutcome.bracketError bracketMsg, s)
      else
        if (solveLoop s.f s.df tol maxIter 1 ⟨a, b, (a + b) / 2, []⟩).2 then
          (SolveOutcome.raised,
            { s with history := (solveLoop s.f s.df tol maxIter 1 ⟨a, b, (a + b) / 2, []⟩).1.history })
        else
          (SolveOutcome.result
              (some (solveLoop s.f s.df tol maxIter 1 ⟨a, b, (a + b) / 2, []⟩).1.currentX)
              (solveLoop s.f s.df tol maxIter 1 ⟨a, b, (a + b) / 2, []⟩).1.history,
            { s with history := (solveLoop s.f s.df tol maxIter 1 ⟨a, b, (a + b) / 2, []⟩).1.history })
    | _, _ => (SolveOutcome.raised, s)
  else (SolveOutcome.result none [], s)

/-! ### Helper lemmas about one iteration -/

/-- The Newton attempt labels its step with one of the two method strings,
and a step labelled Bisection is always the midpoint of the bracket. -/
lemma newtonAttempt_method_cases (f df : ℚ → Option ℚ) (a b cx : ℚ) :
    (newtonAttempt f df a b cx).2.1 = "Newton-Raphson" ∨
      ((newtonAttempt f df a b cx).2.1 = "Bisection" ∧
        (newtonAttempt f df a b cx).1 = (a + b) / 2) := by
  unfold newtonAttempt
  rcases hf : f cx with _ | fv
  · simp
  · rcases hd : df cx with _ | dv
    · simp
    · by_cases h1 : |dv| < eps
      · simp [h1]
      · by_cases h2 : a < cx - fv / dv ∧ cx - fv / dv < b
        · simp [h1, h2]
        · simp [h1, h2]

/-- A step labelled Newton-Raphson lies strictly inside the bracket. -/
lemma newtonAttempt_newton_mem (f df : ℚ → Option ℚ) (a b cx : ℚ)
    (h : (newtonAttempt f df a b cx).2.1 = "Newton-Raphson") :
    a < (newtonAttempt f df a b cx).1 ∧ (newtonAttempt f df a b cx).1 < b := by
  rcases hf : f cx with _ | fv
  · simp [newtonAttempt, hf] at h
  · rcases hd : df cx with _ | dv
    · simp [newtonAttempt, hf, hd] at h
    · by_cases h1 : |dv| < eps
      · simp [newtonAttempt, hf, hd, h1] at h
      · by_cases h2 : a < cx - fv / dv ∧ cx - fv / dv < b
        · obtain ⟨h2a, h2b⟩ := h2
          simp [newtonAttempt, hf, hd, h1, h2a, h2b]
        · simp [newtonAttempt, hf, hd, h1, h2] at h

/-- Inversion of a successful bracket update: both unprotected
evaluations returned values, the new bracket keeps one endpoint and
replaces the other with current_x according to the sign test, and the
record fields are exactly the ones written at lines 92-99. -/
lemma stepUpdate_some {f : ℚ → Option ℚ} {i : Nat} {a b cx : ℚ} {m d : String}
    {a' b' : ℚ} {r : IterationRecord}
    (h : stepUpdate f i a b cx m d = some (a', b', r)) :
    ∃ fNew fa, f cx = some fNew ∧ f a = some fa ∧
      ((fa * fNew < 0 ∧ a' = a ∧ b' = cx) ∨ (¬ fa * fNew < 0 ∧ a' = cx ∧ b' = b)) ∧
      r = ⟨i, m, cx, fNew, |b' - a'|, d⟩ := by
  rcases hcx : f cx with _ | fNew
  · simp [stepUpdate, hcx] at h
  · rcases ha : f a with _ | fa
    · simp [stepUpdate, hcx, ha] at h
    · refine ⟨fNew, fa, rfl, rfl, ?_⟩
      by_cases hs : fa * fNew < 0
      · simp only [stepUpdate, hcx, ha, if_pos hs, Option.some.injEq, Prod.mk.injEq] at h
        obtain ⟨h1, h2, h3⟩ := h
        subst h1; subst h2; subst h3
        exact ⟨Or.inl ⟨hs, rfl, rfl⟩, rfl⟩
      · simp only [stepUpdate, hcx, ha, if_neg hs, Option.some.injEq, Prod.mk.injEq] at h
        obtain ⟨h1, h2, h3⟩ := h
        subst h1; subst h2; subst h3
        exact ⟨Or.inr ⟨hs, rfl, rfl⟩, rfl⟩

/-- Inversion of a completed iteration: the new state comes from a
successful bracket update of the step chosen by the Newton attempt, and
the produced row is appended to the history. -/
lemma iterBody_some {f df : ℚ → Option ℚ} {i : Nat} {st st' : LoopState}
    {r : IterationRecord} (h : iterBody f df i st = some (st', r)) :
    stepUpdate f i st.a st.b (newtonAttempt f df st.a st.b st.currentX).1
        (newtonAttempt f df st.a st.b st.currentX).2.1
        (newtonAttempt f df st.a st.b st.currentX).2.2 = some (st'.a, st'.b, r) ∧
      st'.currentX = (newtonAttempt f df st.a st.b st.currentX).1 ∧
      st'.history = st.history ++ [r] := by
  rcases hs : stepUpdate f i st.a st.b (newtonAttempt f df st.a st.b st.currentX).1
      (newtonAttempt f df st.a st.b st.currentX).2.1
      (newtonAttempt f df st.a st.b st.currentX).2.2 with _ | x
  · simp [iterBody, hs] at h
  · obtain ⟨x1, x2, x3⟩ := x
    simp only [iterBody, hs, Option.some.injEq, Prod.mk.injEq] at h
    obtain ⟨hst, hr⟩ := h
    subst hst
    subst hr
    exact ⟨rfl, rfl, rfl⟩

/-- The threshold constant is positive. -/
lemma eps_pos : (0 : ℚ) < eps := by norm_num [eps]

/-- A point strictly inside the bracket, or its midpoint, never widens
the interval on either side. -/
lemma width_after_le (a b cx : ℚ) (hcx : (a < cx ∧ cx < b) ∨ cx = (a + b) / 2) :
    |cx - a| ≤ |b - a| ∧ |b - cx| ≤ |b - a| := by
  rcases hcx with ⟨h1, h2⟩ | h
  · constructor
    · rw [abs_of_nonneg (by linarith), abs_of_nonneg (by linarith)]; linarith
    · rw [abs_of_nonneg (by linarith), abs_of_nonneg (by linarith)]; linarith
  · subst h
    constructor
    · have h1 : (a + b) / 2 - a = (b - a) / 2 := by ring
      rw [h1, abs_div, abs_two]
      exact half_le_self (abs_nonneg _)
    · have h1 : b - (a + b) / 2 = (b - a) / 2 := by ring
      rw [h1, abs_div, abs_two]
      exact half_le_self (abs_nonneg _)

/-- The step chosen by the Newton attempt is either strictly inside the
bracket or exactly its midpoint. -/
lemma newtonAttempt_cx_cases (f df : ℚ → Option ℚ) (a b cx : ℚ) :
    (a < (newtonAttempt f df a b cx).1 ∧ (newtonAttempt f df a b cx).1 < b) ∨
      (newtonAttempt f df a b cx).1 = (a + b) / 2 := by
  rcases newtonAttempt_method_cases f df a b cx with h | ⟨_, h⟩
  · exact Or.inl (newtonAttempt_newton_mem f df a b cx h)
  · exact Or.inr h

/-- The recorded error of a completed iteration is the updated interval
width, and that width never exceeds the width before the update. -/
lemma iterBody_width {f df : ℚ → Option ℚ} {i : Nat} {st st' : LoopState}
    {r : IterationRecord} (h : iterBody f df i st = some (st', r)) :
    r.errorEst = |st'.b - st'.a| ∧ |st'.b - st'.a| ≤ |st.b - st.a| := by
  obtain ⟨hs, hcx, hh⟩ := iterBody_some h
  obtain ⟨fNew, fa, hf1, hf2, hdir, hr⟩ := stepUpdate_some hs
  have hw := width_after_le st.a st.b (newtonAttempt f df st.a st.b st.currentX).1
    (newtonAttempt_cx_cases f df st.a st.b st.currentX)
  refine ⟨by rw [hr], ?_⟩
  rcases hdir with ⟨_, ha', hb'⟩ | ⟨_, ha', hb'⟩
  · rw [ha', hb']; exact hw.1
  · rw [ha', hb']; exact hw.2

/-- Orientation and membership invariant: the bracket stays ordered and
the running estimate stays inside it. -/
def GoodState (st : LoopState) : Prop :=
  st.a < st.b ∧ st.a ≤ st.currentX ∧ st.currentX ≤ st.b

/-- One completed iteration preserves the orientation invariant, and
leaves current_x equal to one of the two new endpoints. -/
lemma iterBody_good {f df : ℚ → Option ℚ} {i : Nat} {st st' : LoopState}
    {r : IterationRecord} (hg : GoodState st) (h : iterBody f df i st = some (st', r)) :
    GoodState st' := by
  obtain ⟨hs, hcx, hh⟩ := iterBody_some h
  obtain ⟨fNew, fa, hf1, hf2, hdir, hr⟩ := stepUpdate_some hs
  obtain ⟨hab, _, _⟩ := hg
  have hmem : st.a < (newtonAttempt f df st.a st.b st.currentX).1 ∧
      (newtonAttempt f df st.a st.b st.currentX).1 < st.b := by
    rcases newtonAttempt_cx_cases f df st.a st.b st.currentX with h' | h'
    · exact h'
    · rw [h']; constructor <;> linarith
  rcases hdir with ⟨_, ha', hb'⟩ | ⟨_, ha', hb'⟩
  · exact ⟨by rw [ha', hb']; exact hmem.1,
      by rw [ha', hcx]; exact le_of_lt hmem.1,
      by rw [hcx, hb']⟩
  · exact ⟨by rw [ha', hb']; exact hmem.2,
      by rw [ha', hcx],
      by rw [hcx, hb']; exact le_of_lt hmem.2⟩

/-- The strict bracketing invariant: f is defined at both endpoints and
the two values have opposite signs. -/
def BracketInv (f : ℚ → Option ℚ) (st : LoopState) : Prop :=
  ∃ fa fb, f st.a = some fa ∧ f st.b = some fb ∧ fa * fb < 0

/-- The weak bracketing invariant: f is defined at both endpoints with a
non-positive product of values. -/
def BracketInvW (f : ℚ → Option ℚ) (st : LoopState) : Prop :=
  ∃ fa fb, f st.a = some fa ∧ f st.b = some fb ∧ fa * fb ≤ 0

/-- Sign bookkeeping of the update branch that moves the low endpoint:
the new product is non-positive, and stays strictly negative whenever
the new function value is non-zero. -/
lemma sign_flip {fa fb fNew : ℚ} (hlt : fa * fb < 0) (hge : ¬ fa * fNew < 0) :
    fNew * fb ≤ 0 ∧ (fNew ≠ 0 → fNew * fb < 0) := by
  have hfa : fa ≠ 0 := by
    rintro rfl
    simp at hlt
  push_neg at hge
  rcases hfa.lt_or_lt with h0 | h0
  · have hb0 : 0 < fb := by nlinarith
    have hN : fNew ≤ 0 := by nlinarith
    exact ⟨by nlinarith, fun hne =>
      mul_neg_of_neg_of_pos (lt_of_le_of_ne hN hne) hb0⟩
  · have hb0 : fb < 0 := by nlinarith
    have hN : 0 ≤ fNew := by nlinarith
    exact ⟨by nlinarith, fun hne =>
      mul_neg_of_pos_of_neg (lt_of_le_of_ne hN (Ne.symm hne)) hb0⟩

/-- The effect of one completed bracket update on the invariant: from a
strict bracket the update always yields at least the weak invariant, and
yields the strict one again whenever f(current_x) is non-zero. -/
lemma iterBody_bracket {f df : ℚ → Option ℚ} {i : Nat} {st st' : LoopState}
    {r : IterationRecord} (hb : BracketInv f st)
    (h : iterBody f df i st = some (st', r)) :
    BracketInvW f st' ∧ (r.fValue ≠ 0 → BracketInv f st') := by
  obtain ⟨hs, hcx, hh⟩ := iterBody_some h
  obtain ⟨fNew, fa, hf1, hf2, hdir, hr⟩ := stepUpdate_some hs
  obtain ⟨fa0, fb0, ha0, hb0, hlt⟩ := hb
  have hfa : fa = fa0 := by
    rw [hf2] at ha0
    exact Option.some.inj ha0
  subst hfa
  have hrv : r.fValue = fNew := by rw [hr]
  rcases hdir with ⟨hsign, ha', hb'⟩ | ⟨hsign, ha', hb'⟩
  · constructor
    · exact ⟨fa, fNew, by rw [ha']; exact hf2, by rw [hb']; exact hf1, le_of_lt hsign⟩
    · exact fun _ => ⟨fa, fNew, by rw [ha']; exact hf2, by rw [hb']; exact hf1, hsign⟩
  · obtain ⟨hw, hstrict⟩ := sign_flip hlt hsign
    constructor
    · exact ⟨fNew, fb0, by rw [ha']; exact hf1, by rw [hb']; exact hb0, hw⟩
    · intro hne
      rw [hrv] at hne
      exact ⟨fNew, fb0, by rw [ha']; exact hf1, by rw [hb']; exact hb0, hstrict hne⟩

/-! ### Loop-level lemmas -/

/-- The loop states at which an iteration of the loop of solve can still
begin: the initial state, plus every state produced by a completed
iteration whose record did not meet the convergence test of line 102.
Every iteration actually performed by solveLoop starts from such a
state. -/
inductive Reaches (f df : ℚ → Option ℚ) (tol : ℚ) (st0 : LoopState) : LoopState → Prop
  | refl : Reaches f df tol st0 st0
  | step (st st' : LoopState) (i : Nat) (r : IterationRecord)
      (hR : Reaches f df tol st0 st) (hit : iterBody f df i st = some (st', r))
      (hnc : ¬ (r.errorEst < tol ∨ |r.fValue| < eps)) : Reaches f df tol st0 st'

/-- The strict bracket invariant holds at every state from which an
iteration can still begin: a state that breaks it can only arise with a
zero residual, which stops the loop at once. -/
lemma reaches_bracketInv {f df : ℚ → Option ℚ} {tol : ℚ} {st0 st : LoopState}
    (h0 : BracketInv f st0) (hR : Reaches f df tol st0 st) : BracketInv f st := by
  induction hR with
  | refl => exact h0
  | step st st' i r hR hit hnc ih =>
    have hfne : r.fValue ≠ 0 := by
      intro hz
      exact hnc (Or.inr (by rw [hz, abs_zero]; exact eps_pos))
    exact (iterBody_bracket ih hit).2 hfne

/-- The orientation invariant survives a whole run of the loop. -/
lemma solveLoop_good (f df : ℚ → Option ℚ) (tol : ℚ) :
    ∀ (fuel i : Nat) (st : LoopState), GoodState st →
      GoodState (solveLoop f df tol fuel i st).1 := by
  intro fuel
  induction fuel with
  | zero => intro i st h; exact h
  | succ n ih =>
    intro i st h
    rw [solveLoop]
    rcases hit : iterBody f df i st with _ | p
    · exact h
    · obtain ⟨st', r⟩ := p
      by_cases hc : r.errorEst < tol ∨ |r.fValue| < eps
      · simpa [hc] using iterBody_good h hit
      · simpa [hc] using ih (i + 1) st' (iterBody_good h hit)

/-- Along a run of the loop the recorded errors never increase: the
history stays sorted in the non-increasing order of errorEst as long as
the width of the live bracket is below the last recorded error. -/
lemma solveLoop_chain (f df : ℚ → Option ℚ) (tol : ℚ) :
    ∀ (fuel i : Nat) (st : LoopState),
      List.Chain' (fun r1 r2 => r2.errorEst ≤ r1.errorEst) st.history →
      (∀ rl, st.history.getLast? = some rl → |st.b - st.a| ≤ rl.errorEst) →
      List.Chain' (fun r1 r2 => r2.errorEst ≤ r1.errorEst)
        (solveLoop f df tol fuel i st).1.history := by
  intro fuel
  induction fuel with
  | zero => intro i st h _; exact h
  | succ n ih =>
    intro i st h hlast
    rw [solveLoop]
    rcases hit : iterBody f df i st with _ | p
    · exact h
    · obtain ⟨st', r⟩ := p
      obtain ⟨hw1, hw2⟩ := iterBody_width hit
      obtain ⟨_, _, hh⟩ := iterBody_some hit
      have hchain' : List.Chain' (fun r1 r2 => r2.errorEst ≤ r1.errorEst) st'.history := by
        rw [hh, List.chain'_append]
        refine ⟨h, List.chain'_singleton r, ?_⟩
        intro x hx y hy
        simp only [List.head?_cons, Option.mem_def, Option.some.injEq] at hy
        subst hy
        calc r.errorEst = |st'.b - st'.a| := hw1
          _ ≤ |st.b - st.a| := hw2
          _ ≤ x.errorEst := hlast x hx
      have hlast' : ∀ rl, st'.history.getLast? = some rl → |st'.b - st'.a| ≤ rl.errorEst := by
        intro rl hrl
        rw [hh, List.getLast?_concat] at hrl
        obtain rfl : r = rl := Option.some.inj hrl
        exact le_of_eq hw1.symm
      by_cases hc : r.errorEst < tol ∨ |r.fValue| < eps
      · simpa [hc] using hchain'
      · simpa [hc] using ih (i + 1) st' hchain' hlast'

/-- A run of the loop appends at most fuel rows to the history. -/
lemma solveLoop_length (f df : ℚ → Option ℚ) (tol : ℚ) :
    ∀ (fuel i : Nat) (st : LoopState),
      (solveLoop f df tol fuel i st).1.history.length ≤ st.history.length + fuel := by
  intro fuel
  induction fuel with
  | zero => intro i st; exact Nat.le_refl _
  | succ n ih =>
    intro i st
    rw [solveLoop]
    rcases hit : iterBody f df i st with _ | p
    · exact Nat.le_add_right _ _
    · obtain ⟨st', r⟩ := p
      obtain ⟨_, _, hh⟩ := iterBody_some hit
      have hlen : st'.history.length = st.history.length + 1 := by
        rw [hh, List.length_append, List.length_singleton]
      by_cases hc : r.errorEst < tol ∨ |r.fValue| < eps
      · simp only [hc, if_true]
        rw [hlen]
        omega
      · simp only [hc, if_false]
        have := ih (i + 1) st'
        rw [hlen] at this
        omega

/-- Each completed iteration appends exactly one row carrying the loop
index of that iteration: if the rows so far are numbered 1..n and the
loop index is n+1, the rows stay numbered consecutively from 1. -/
lemma solveLoop_map_iteration (f df : ℚ → Option ℚ) (tol : ℚ) :
    ∀ (fuel : Nat) (st : LoopState),
      st.history.map (fun r => r.iteration) = List.range' 1 st.history.length →
      (solveLoop f df tol fuel (st.history.length + 1) st).1.history.map
          (fun r => r.iteration) =
        List.range' 1
          (solveLoop f df tol fuel (st.history.length + 1) st).1.history.length := by
  intro fuel
  induction fuel with
  | zero => intro st h; exact h
  | succ n ih =>
    intro st h
    rw [solveLoop]
    rcases hit : iterBody f df (st.history.length + 1) st with _ | p
    · exact h
    · obtain ⟨st', r⟩ := p
      obtain ⟨hs, _, hh⟩ := iterBody_some hit
      obtain ⟨fNew, fa, _, _, _, hr⟩ := stepUpdate_some hs
      have hri : r.iteration = st.history.length + 1 := by rw [hr]
      have hmap : st'.history.map (fun r => r.iteration) =
          List.range' 1 st'.history.length := by
        rw [hh, List.map_append, List.length_append, List.length_singleton,
          List.map_singleton, hri, h]
        rw [List.range'_1_concat, Nat.add_comm 1 st.history.length]
      by_cases hc : r.errorEst < tol ∨ |r.fValue| < eps
      · simpa [hc] using hmap
      · have hlen : st'.history.length = st.history.length + 1 := by
          rw [hh, List.length_append, List.length_singleton]
        have := ih st' hmap
        rw [hlen] at this
        simpa [hc] using this

/-! ### Inversion of the top-level solve -/

/-- Inversion of a successful call of solve: the call went past both
validations and the loop finished without an exception; the returned
root and history are exactly the final current_x and history of the
loop started on the cleared history. -/
lemma solve_ok {s : HybridSolver} {a b tol : ℚ} {maxIter : Nat} {root : ℚ}
    {hist : List IterationRecord} {s' : HybridSolver}
    (h : s.solve a b tol maxIter = (SolveOutcome.result (some root) hist, s')) :
    s.valid = true ∧
      root = (solveLoop s.f s.df tol maxIter 1 ⟨a, b, (a + b) / 2, []⟩).1.currentX ∧
      hist = (solveLoop s.f s.df tol maxIter 1 ⟨a, b, (a + b) / 2, []⟩).1.history := by
  unfold HybridSolver.solve at h
  by_cases hv : s.valid
  · rw [if_pos hv] at h
    rcases hfa : s.f a with _ | fa
    · simp only [hfa] at h
      exact absurd h (by simp)
    · rcases hfb : s.f b with _ | fb
      · simp only [hfa, hfb] at h
        exact absurd h (by simp)
      · simp only [hfa, hfb] at h
        by_cases hge : fa * fb ≥ 0
        · rw [if_pos hge] at h
          exact absurd h (by simp [bracketMsg])
        · rw [if_neg hge] at h
          by_cases hex : (solveLoop s.f s.df tol maxIter 1 ⟨a, b, (a + b) / 2, []⟩).2
          · rw [if_pos hex] at h
            exact absurd h (by simp)
          · rw [if_neg hex] at h
            simp only [Prod.mk.injEq, SolveOutcome.result.injEq, Option.some.injEq] at h
            exact ⟨hv, h.1.1.symm, h.1.2.symm⟩
  · rw [if_neg hv] at h
    exact absurd h (by simp)

/-- A call of solve that passed both validations stores the history of
the loop started on the cleared empty history, whatever the previous
content of self.history was. -/
lemma solve_postHistory {s : HybridSolver} {a b tol : ℚ} {maxIter : Nat}
    (hv : s.valid = true) {fa fb : ℚ} (hfa : s.f a = some fa) (hfb : s.f b = some fb)
    (hlt : ¬ fa * fb ≥ 0) :
    (s.solve a b tol maxIter).2.history =
      (solveLoop s.f s.df tol maxIter 1 ⟨a, b, (a + b) / 2, []⟩).1.history := by
  unfold HybridSolver.solve
  rw [if_pos hv]
  simp only [hfa, hfb]
  rw [if_neg hlt]
  by_cases hex : (solveLoop s.f s.df tol maxIter 1 ⟨a, b, (a + b) / 2, []⟩).2
  · rw [if_pos hex]
  · rw [if_neg hex]

/-! ### Concrete instances used by the witnesses and counterexamples -/

/-- f(x) = x. -/
def fId : ℚ → Option ℚ := fun x => some x

/-- Derivative of f(x) = x. -/
def dfOne : ℚ → Option ℚ := fun _ => some 1

/-- f(x) = x² - 2. -/
def fSq2 : ℚ → Option ℚ := fun x => some (x * x - 2)

/-- Derivative of f(x) = x² - 2. -/
def dfSq2 : ℚ → Option ℚ := fun x => some (2 * x)

/-- f(x) = x³ - 2x + 2, the default function of the app front end. -/
def cubeF : ℚ → Option ℚ := fun x => some (x * x * x - 2 * x + 2)

/-- Derivative of f(x) = x³ - 2x + 2. -/
def cubeDf : ℚ → Option ℚ := fun x => some (3 * (x * x) - 2)

/-- f(x) = x² + 1, the bracket-failure test function of the spec. -/
def fPos : ℚ → Option ℚ := fun x => some (x * x + 1)

/-- Derivative of f(x) = x² + 1. -/
def dfPos : ℚ → Option ℚ := fun x => some (2 * x)

/-- f(x) = 1/x, raising at x = 0. -/
def fInv : ℚ → Option ℚ := fun x => if x = 0 then none else some (1 / x)

/-- Derivative of f(x) = 1/x, raising at x = 0. -/
def dfInv : ℚ → Option ℚ := fun x => if x = 0 then none else some (-(1 / (x * x)))

/-- A solver that parsed f(x) = x. -/
def solverLin : HybridSolver := ⟨true, fId, dfOne, []⟩

/-- The single row of the run of solverLin on [-1, 1]. -/
def linRec : IterationRecord := ⟨1, "Newton-Raphson", 0, 0, 1, "Accepted (Step is Safe)"⟩

/-- A solver that parsed f(x) = x² + 1. -/
def solverPos : HybridSolver := ⟨true, fPos, dfPos, []⟩

/-- A solver that parsed f(x) = 1/x. -/
def solverInv : HybridSolver := ⟨true, fInv, dfInv, []⟩

/-- A leftover row from some earlier run. -/
def staleRec : IterationRecord := ⟨7, "Bisection", 0, 0, 0, "Switched (Newton Singularity)"⟩

/-- A solver that parsed f(x) = x² + 1 and still holds a stale history. -/
def solverStale : HybridSolver := ⟨true, fPos, dfPos, [staleRec]⟩

/-- A solver that parsed f(x) = x and still holds a stale history. -/
def solverLinStale : HybridSolver := ⟨true, fId, dfOne, [staleRec]⟩

/-- A solver whose construction failed to parse the function. -/
def solverBad : HybridSolver := ⟨false, fun _ => none, fun _ => none, []⟩

/-- Pre-iteration state of the x² - 2 run on [1, 2]. -/
def sqSt : LoopState := ⟨1, 2, 3 / 2, []⟩

/-- Row of the first iteration of the x² - 2 run on [1, 2]. -/
def sqRec : IterationRecord :=
  ⟨1, "Newton-Raphson", 17 / 12, 1 / 144, 5 / 12, "Accepted (Step is Safe)"⟩

/-- Post-iteration state of the x² - 2 run on [1, 2]. -/
def sqSt' : LoopState := ⟨1, 17 / 12, 17 / 12, [sqRec]⟩

/-- Pre-iteration state of the x³ - 2x + 2 run on [-2, 1]. -/
def cubeSt : LoopState := ⟨-2, 1, -(1 / 2), []⟩

/-- Row of the first iteration of the x³ - 2x + 2 run on [-2, 1]. -/
def cubeRec : IterationRecord :=
  ⟨1, "Bisection", -(1 / 2), 23 / 8, 3 / 2, "Switched (Newton Overshot Bounds)"⟩

/-- Post-iteration state of the x³ - 2x + 2 run on [-2, 1]. -/
def cubeSt' : LoopState := ⟨-2, -(1 / 2), -(1 / 2), [cubeRec]⟩

/-! ### The claims -/

/-- C10: a call of solve on a solver whose construction failed to parse
the function returns None with an empty history and leaves the solver
untouched. The theorem holds for every pair of callables, in particular
for ones raising everywhere, so the call cannot have evaluated f or
f_prime, and it cannot have raised. -/
theorem C10_invalid_solver (s : HybridSolver) (a b tol : ℚ) (maxIter : Nat)
    (hv : s.valid = false) :
    s.solve a b tol maxIter = (SolveOutcome.result none [], s) := by
  unfold HybridSolver.solve
  rw [hv]
  simp

/-- Witness for C10: the everywhere-raising solver with valid = false. -/
theorem C10_invalid_solver_witness :
    HybridSolver.solve solverBad 0 1 (1 / 1000000) 100 =
      (SolveOutcome.result none [], solverBad) :=
  C10_invalid_solver solverBad 0 1 (1 / 1000000) 100 rfl

/-- C5: a call of solve on a validly parsed function whose endpoint
values both evaluate and have a non-negative product (the case of an
exactly zero endpoint value included) returns the distinguished
bracket-failure string rather than raising, and leaves the solver state
completely unchanged, so no iteration record is produced and no bracket
update occurs. -/
theorem C5_bracket_failure (s : HybridSolver) (a b tol : ℚ) (maxIter : Nat)
    (fa fb : ℚ) (hv : s.valid = true) (hfa : s.f a = some fa) (hfb : s.f b = some fb)
    (hge : fa * fb ≥ 0) :
    s.solve a b tol maxIter = (SolveOutcome.bracketError bracketMsg, s) := by
  unfold HybridSolver.solve
  rw [hv]
  simp only [hfa, hfb]
  rw [if_pos hge]
  simp

/-- Witness for C5: f(x) = x² + 1 on [-1, 1], the spec's own test. -/
theorem C5_bracket_failure_witness :
    HybridSolver.solve solverPos (-1) 1 (1 / 1000000) 100 =
      (SolveOutcome.bracketError bracketMsg, solverPos) :=
  C5_bracket_failure solverPos (-1) 1 (1 / 1000000) 100 2 2 rfl
    (by norm_num [solverPos, fPos]) (by norm_num [solverPos, fPos]) (by norm_num)

/-- C2 counterexample: solving f(x) = 1/x on [-2, 1] passes bracket
validation (f(-2)·f(1) = -1/2 < 0). Iteration 1 accepts the Newton step
to -1 and moves the low endpoint there; iteration 2 rejects the Newton
candidate -2 as an overshoot and bisects to current_x = 0, where the
unprotected bracket-update evaluation f(0) (line 81 of the source, out
of the protected region of lines 53-78) raises, and the exception
propagates out of solve instead of being resolved by the bisection
fallback. -/
theorem C2_counterexample :
    fInv (-2) = some (-(1 / 2)) ∧ fInv 1 = some 1 ∧ (-(1 / 2) : ℚ) * 1 < 0 ∧
      (HybridSolver.solve solverInv (-2) 1 (1 / 1000000) 100).1 = SolveOutcome.raised := by
  refine ⟨by norm_num [fInv], by norm_num [fInv], by norm_num, ?_⟩
  norm_num [HybridSolver.solve, solverInv, solveLoop, iterBody, stepUpdate,
    newtonAttempt, fInv, dfInv, eps]

/-- C2 amended: an exception of f or f_prime inside the protected Newton
attempt (lines 53-78) is always caught locally and resolved into the
bisection midpoint step with the singularity decision, and never
surfaces; the two bracket-update evaluations of lines 81 and 83 are
outside that protection and an exception there does propagate to the
caller of solve. -/
theorem C2_newton_attempt_selfheal (f df : ℚ → Option ℚ) (a b cx : ℚ)
    (h : f cx = none ∨ df cx = none) :
    newtonAttempt f df a b cx = ((a + b) / 2, "Bisection", "Switched (Newton Singularity)") := by
  rcases h with h | h
  · rcases hd : df cx with _ | dv <;> simp [newtonAttempt, h, hd]
  · rcases hf : f cx with _ | fv <;> simp [newtonAttempt, h, hf]

/-- Witness for the amended C2: a raising evaluation inside the Newton
attempt resolves into the midpoint singularity fallback. -/
theorem C2_newton_attempt_selfheal_witness :
    newtonAttempt (fun _ => none) (fun _ => none) 0 2 1 =
      ((0 + 2) / 2, "Bisection", "Switched (Newton Singularity)") :=
  C2_newton_attempt_selfheal (fun _ => none) (fun _ => none) 0 2 1 (Or.inl rfl)

/-- C8 counterexample: a solver still holding a stale history row from
an earlier run is asked to solve f(x) = x² + 1 on [-1, 1]. The call ends
in bracket-validation failure, and because the history is cleared only
at line 46, after the bracket check of line 42, the stale row survives
the call: the history is not discarded at the start of the call. -/
theorem C8_counterexample :
    (HybridSolver.solve solverStale (-1) 1 (1 / 1000000) 100).1 =
        SolveOutcome.bracketError bracketMsg ∧
      (HybridSolver.solve solverStale (-1) 1 (1 / 1000000) 100).2.history = [staleRec] ∧
      [staleRec] ≠ ([] : List IterationRecord) := by
  refine ⟨?_, ?_, by simp⟩
  · norm_num [HybridSolver.solve, solverStale, fPos]
  · norm_num [HybridSolver.solve, solverStale, fPos]

/-- C8 amended: once a call of solve has passed parse validity and the
bracket check, self.history is replaced by the history of the loop
started from the cleared empty history, so nothing of a previous run
survives a call that reaches the iteration loop; a call that fails the
bracket check (or the validity check) keeps the old history instead. -/
theorem C8_history_reset_amended (s : HybridSolver) (a b tol : ℚ) (maxIter : Nat)
    (fa fb : ℚ) (hv : s.valid = true) (hfa : s.f a = some fa) (hfb : s.f b = some fb)
    (hlt : ¬ fa * fb ≥ 0) :
    (s.solve a b tol maxIter).2.history =
      (solveLoop s.f s.df tol maxIter 1 ⟨a, b, (a + b) / 2, []⟩).1.history :=
  solve_postHistory hv hfa hfb hlt

/-- Witness for the amended C8: the stale-history linear solver on a
valid bracket ends up with exactly the loop history. -/
theorem C8_history_reset_amended_witness :
    (HybridSolver.solve solverLinStale (-1) 1 (1 / 2) 3).2.history =
      (solveLoop solverLinStale.f solverLinStale.df (1 / 2) 3 1
        ⟨-1, 1, (-1 + 1) / 2, []⟩).1.history :=
  C8_history_reset_amended solverLinStale (-1) 1 (1 / 2) 3 (-1) 1 rfl rfl rfl (by norm_num)

/-- C1 counterexample: solving f(x) = x on [-1, 1] passes bracket
validation (f(-1)·f(1) = -1 < 0), and the first iteration of the run
(current_x starts at the midpoint 0) accepts Newton, lands exactly on
the root 0, and the update moves the low endpoint there: after that
update f(low)·f(high) = 0·1 = 0, so the invariant f(low)·f(high) < 0
does not hold after the bracket-update step of that iteration. -/
theorem C1_counterexample :
    fId (-1) = some (-1) ∧ fId 1 = some 1 ∧ ((-1 : ℚ)) * 1 < 0 ∧
      iterBody fId dfOne 1 ⟨-1, 1, (-1 + 1) / 2, []⟩ = some (⟨0, 1, 0, [linRec]⟩, linRec) ∧
      fId 0 = some 0 ∧ ¬ ((0 : ℚ) * 1 < 0) := by
  refine ⟨rfl, rfl, by norm_num, ?_, rfl, by norm_num⟩
  norm_num [iterBody, stepUpdate, newtonAttempt, fId, dfOne, linRec, eps]

/-- C1 amended: at every state of a run from which an iteration still
begins, the strict invariant f(low)·f(high) < 0 holds before the
bracket update; after the update the product is always defined and
non-positive, and it is again strictly negative whenever the value
recorded for f(current_x) is non-zero — in the remaining case the
residual is zero and the loop stops at once, so no iteration ever
begins on a non-bracketing interval. -/
theorem C1_bracket_invariant_amended (f df : ℚ → Option ℚ) (tol : ℚ)
    (st0 st st' : LoopState) (i : Nat) (r : IterationRecord)
    (h0 : BracketInv f st0) (hR : Reaches f df tol st0 st)
    (hit : iterBody f df i st = some (st', r)) :
    BracketInv f st ∧ BracketInvW f st' ∧ (r.fValue ≠ 0 → BracketInv f st') := by
  have hpre := reaches_bracketInv h0 hR
  exact ⟨hpre, (iterBody_bracket hpre hit).1, (iterBody_bracket hpre hit).2⟩

/-- Witness for the amended C1: the first iteration of f(x) = x² - 2 on
[1, 2]. -/
theorem C1_bracket_invariant_amended_witness :
    BracketInv fSq2 sqSt ∧ BracketInvW fSq2 sqSt' ∧
      (sqRec.fValue ≠ 0 → BracketInv fSq2 sqSt') :=
  C1_bracket_invariant_amended fSq2 dfSq2 (1 / 1000000) sqSt sqSt sqSt' 1 sqRec
    ⟨-1, 2, by norm_num [fSq2, sqSt], by norm_num [fSq2, sqSt], by norm_num⟩
    Reaches.refl
    (by norm_num [iterBody, stepUpdate, newtonAttempt, fSq2, dfSq2, sqSt, sqSt', sqRec, eps])

/-- C3: in an iteration where the Newton attempt evaluates cleanly with
a derivative at least 1e-12 in magnitude but the Newton candidate
current_x − f(current_x)/f_prime(current_x) is not strictly inside the
current bracket, the recorded method is Bisection with the overshoot
decision, and both the recorded estimate and the new current_x are
exactly the midpoint of the bracket at that step. -/
theorem C3_overshoot_switch (f df : ℚ → Option ℚ) (i : Nat) (st st' : LoopState)
    (r : IterationRecord) (fv dv : ℚ)
    (hf : f st.currentX = some fv) (hd : df st.currentX = some dv)
    (hdv : ¬ |dv| < eps)
    (hout : ¬ (st.a < st.currentX - fv / dv ∧ st.currentX - fv / dv < st.b))
    (hit : iterBody f df i st = some (st', r)) :
    r.method = "Bisection" ∧ r.decision = "Switched (Newton Overshot Bounds)" ∧
      r.currentX = (st.a + st.b) / 2 ∧ st'.currentX = (st.a + st.b) / 2 := by
  have hna : newtonAttempt f df st.a st.b st.currentX =
      ((st.a + st.b) / 2, "Bisection", "Switched (Newton Overshot Bounds)") := by
    simp [newtonAttempt, hf, hd, hdv, hout]
  obtain ⟨hs, hcx, hh⟩ := iterBody_some hit
  obtain ⟨fNew, fa, hf1, hf2, hdir, hr⟩ := stepUpdate_some hs
  rw [hna] at hcx hr
  exact ⟨by rw [hr], by rw [hr], by rw [hr], hcx⟩

/-- Witness for C3: the first iteration of f(x) = x³ - 2x + 2 on
[-2, 1], where the Newton candidate 9/5 escapes the bracket. -/
theorem C3_overshoot_switch_witness :
    cubeRec.method = "Bisection" ∧ cubeRec.decision = "Switched (Newton Overshot Bounds)" ∧
      cubeRec.currentX = (cubeSt.a + cubeSt.b) / 2 ∧
      cubeSt'.currentX = (cubeSt.a + cubeSt.b) / 2 :=
  C3_overshoot_switch cubeF cubeDf 1 cubeSt cubeSt' cubeRec (23 / 8) (-(5 / 4))
    (by norm_num [cubeF, cubeSt]) (by norm_num [cubeDf, cubeSt])
    (by rw [abs_neg, abs_of_pos (by norm_num : (0 : ℚ) < 5 / 4)]; norm_num [eps])
    (by norm_num [cubeSt])
    (by norm_num [iterBody, stepUpdate, newtonAttempt, cubeF, cubeDf, cubeSt, cubeSt',
      cubeRec, eps, abs_neg, abs_of_pos, abs_of_nonneg])

/-- C7: in an iteration whose recorded method is Bisection — which in
this code happens exactly when current_x was set to the midpoint of the
full bracket, by the overshoot switch or by the singularity fallback —
the interval width after the bracket update is exactly half the width
before it. -/
theorem C7_bisection_halving (f df : ℚ → Option ℚ) (i : Nat) (st st' : LoopState)
    (r : IterationRecord) (hit : iterBody f df i st = some (st', r))
    (hbis : r.method = "Bisection") :
    |st'.b - st'.a| = |st.b - st.a| / 2 := by
  obtain ⟨hs, hcx, hh⟩ := iterBody_some hit
  obtain ⟨fNew, fa, hf1, hf2, hdir, hr⟩ := stepUpdate_some hs
  have hm : r.method = (newtonAttempt f df st.a st.b st.currentX).2.1 := by rw [hr]
  have hmid : (newtonAttempt f df st.a st.b st.currentX).1 = (st.a + st.b) / 2 := by
    rcases newtonAttempt_method_cases f df st.a st.b st.currentX with h' | ⟨_, h'⟩
    · rw [hm, h'] at hbis
      exact absurd hbis (by simp)
    · exact h'
  rcases hdir with ⟨_, ha', hb'⟩ | ⟨_, ha', hb'⟩
  · rw [ha', hb', hmid]
    have harith : (st.a + st.b) / 2 - st.a = (st.b - st.a) / 2 := by ring
    rw [harith, abs_div, abs_two]
  · rw [ha', hb', hmid]
    have harith : st.b - (st.a + st.b) / 2 = (st.b - st.a) / 2 := by ring
    rw [harith, abs_div, abs_two]

/-- Witness for C7: the overshoot iteration of f(x) = x³ - 2x + 2 on
[-2, 1] halves the width from 3 to 3/2. -/
theorem C7_bisection_halving_witness :
    |cubeSt'.b - cubeSt'.a| = |cubeSt.b - cubeSt.a| / 2 :=
  C7_bisection_halving cubeF cubeDf 1 cubeSt cubeSt' cubeRec
    (by norm_num [iterBody, stepUpdate, newtonAttempt, cubeF, cubeDf, cubeSt, cubeSt',
      cubeRec, eps, abs_neg, abs_of_pos, abs_of_nonneg]) rfl

/-- C4: over a successful run of solve the recorded error estimates are
monotonically non-increasing: consecutive history rows always satisfy
error of row i+1 ≤ error of row i, since every step lands inside or on
the current bracket and the recorded error is the updated width. -/
theorem C4_error_monotone (s : HybridSolver) (a b tol : ℚ) (maxIter : Nat)
    (root : ℚ) (hist : List IterationRecord) (s' : HybridSolver)
    (h : s.solve a b tol maxIter = (SolveOutcome.result (some root) hist, s')) :
    List.Chain' (fun r1 r2 => r2.errorEst ≤ r1.errorEst) hist := by
  obtain ⟨_, _, hhist⟩ := solve_ok h
  rw [hhist]
  exact solveLoop_chain s.f s.df tol maxIter 1 ⟨a, b, (a + b) / 2, []⟩
    List.chain'_nil (by intro rl hrl; simp at hrl)

/-- Witness for C4: the one-row history of solving f(x) = x on [-1, 1]. -/
theorem C4_error_monotone_witness :
    List.Chain' (fun r1 r2 => r2.errorEst ≤ r1.errorEst) [linRec] :=
  C4_error_monotone solverLin (-1) 1 (1 / 2) 3 0 [linRec] ⟨true, fId, dfOne, [linRec]⟩
    (by norm_num [HybridSolver.solve, solverLin, solveLoop, iterBody, stepUpdate,
      newtonAttempt, fId, dfOne, linRec, eps])

/-- C6: a successful run of solve executes at most max_iter iterations;
each executed iteration appends exactly one row, so the returned
history has one row per executed iteration, numbered consecutively
1, 2, ..., length, with length ≤ max_iter. -/
theorem C6_history_length (s : HybridSolver) (a b tol : ℚ) (maxIter : Nat)
    (root : ℚ) (hist : List IterationRecord) (s' : HybridSolver)
    (h : s.solve a b tol maxIter = (SolveOutcome.result (some root) hist, s')) :
    hist.length ≤ maxIter ∧
      hist.map (fun r => r.iteration) = List.range' 1 hist.length := by
  obtain ⟨_, _, hhist⟩ := solve_ok h
  subst hhist
  constructor
  · have hlen := solveLoop_length s.f s.df tol maxIter 1 ⟨a, b, (a + b) / 2, []⟩
    simpa using hlen
  · have hmap := solveLoop_map_iteration s.f s.df tol maxIter ⟨a, b, (a + b) / 2, []⟩
      (by simp)
    simpa using hmap

/-- Witness for C6: the run of f(x) = x on [-1, 1] executes one
iteration out of an allowance of three and returns the one-row history
numbered [1]. -/
theorem C6_history_length_witness :
    ([linRec].length ≤ 3) ∧
      [linRec].map (fun r => r.iteration) = List.range' 1 [linRec].length :=
  C6_history_length solverLin (-1) 1 (1 / 2) 3 0 [linRec] ⟨true, fId, dfOne, [linRec]⟩
    (by norm_num [HybridSolver.solve, solverLin, solveLoop, iterBody, stepUpdate,
      newtonAttempt, fId, dfOne, linRec, eps])

/-- C9: a successful run of solve on an ordered interval returns a root
estimate lying inside the final bracket [low, high] left by the last
bracket update of the loop. -/
theorem C9_root_in_bracket (s : HybridSolver) (a b tol : ℚ) (maxIter : Nat)
    (root : ℚ) (hist : List IterationRecord) (s' : HybridSolver) (hab : a < b)
    (h : s.solve a b tol maxIter = (SolveOutcome.result (some root) hist, s')) :
    (solveLoop s.f s.df tol maxIter 1 ⟨a, b, (a + b) / 2, []⟩).1.a ≤ root ∧
      root ≤ (solveLoop s.f s.df tol maxIter 1 ⟨a, b, (a + b) / 2, []⟩).1.b := by
  obtain ⟨_, hroot, _⟩ := solve_ok h
  subst hroot
  have hg := solveLoop_good s.f s.df tol maxIter 1 ⟨a, b, (a + b) / 2, []⟩
    ⟨hab, by show a ≤ (a + b) / 2; linarith, by show (a + b) / 2 ≤ b; linarith⟩
  exact ⟨hg.2.1, hg.2.2⟩

/-- Witness for C9: the root 0 of the f(x) = x run lies in the final
bracket [0, 1]. -/
theorem C9_root_in_bracket_witness :
    (solveLoop solverLin.f solverLin.df (1 / 2) 3 1 ⟨-1, 1, (-1 + 1) / 2, []⟩).1.a ≤ 0 ∧
      (0 : ℚ) ≤ (solveLoop solverLin.f solverLin.df (1 / 2) 3 1 ⟨-1, 1, (-1 + 1) / 2, []⟩).1.b :=
  C9_root_in_bracket solverLin (-1) 1 (1 / 2) 3 0 [linRec] ⟨true, fId, dfOne, [linRec]⟩
    (by norm_num)
    (by norm_num [HybridSolver.solve, solverLin, solveLoop, iterBody, stepUpdate,
      newtonAttempt, fId, dfOne, linRec, eps])
